import Mathlib

/-!
Verification of the solana-zk-layer2 repository core against its
natural-language specification.

The development shallowly embeds the Rust sources:

* `share/src/state.rs` — the L2 state, the two Merkle roots and the
  withdrawal inclusion-proof generator (`Share` namespace);
* `share/src/transaction.rs` — the transaction parser and the block type
  (`Share` namespace);
* `sequencer/src/executor.rs` — the mempool executor and its transfer
  application (`Executor` namespace);
* `sequencer/src/batcher/tx_batcher.rs` — the block collection step of the
  batcher (`TxBatcher` namespace);
* `solana-program/programs/l2-state/src/{util,verifier,bridge,state}.rs` —
  the on-chain settlement program (`L2State` namespace);
* `prover/program/src/main.rs` — the zkVM guest digest computation
  (`Prover` namespace).

Modelling conventions, used throughout:

* byte strings (Rust `Vec<u8>`, `[u8; 32]`, `Pubkey`, and UTF-8 contents of
  `String` addresses) are `List Nat` with entries below 256;
* machine integers are `Nat`, with an explicit `% 2 ^ w` where machine
  wrap-around matters and an explicit guard where the Rust code would
  instead overflow on a checked operation (such guards return `none` or an
  error value, modelling the panic);
* Rust `HashMap` and the on-chain `Vec<(K, V)>` stores are association
  lists with first-match lookup and update-in-place-or-append insertion,
  exactly the semantics of the on-chain `find`-based accessors; `HashMap`
  iteration order, which Rust leaves unspecified, is the list order;
* fallible code returns `Option` or `Except`; a Rust panic inside a
  function is modelled as `none`;
* `while` loops are embedded as fuel-indexed structural recursion, with
  the fuel chosen at the call site to dominate the iteration count.
-/

/-- Big-endian byte encoding of `x` on `n` bytes, as `u64::to_be_bytes` and
`u128::to_be_bytes` produce for `n = 8` and `n = 16`. -/
def beBytes : Nat → Nat → List Nat
  | 0, _ => []
  | n + 1, x => beBytes n (x / 256) ++ [x % 256]

/-- The all-zero 32-byte hash value `[0u8; 32]`. -/
def zero32 : List Nat := List.replicate 32 0

namespace SHA256

/-- Word size modulus for the 32-bit arithmetic of SHA-256. -/
def M32 : Nat := 4294967296

/-- Right rotation of a 32-bit word. -/
def rotr (n x : Nat) : Nat := ((x >>> n) ||| (x <<< (32 - n))) % M32

/-- Big sigma 0. -/
def bsig0 (x : Nat) : Nat := rotr 2 x ^^^ rotr 13 x ^^^ rotr 22 x

/-- Big sigma 1. -/
def bsig1 (x : Nat) : Nat := rotr 6 x ^^^ rotr 11 x ^^^ rotr 25 x

/-- Small sigma 0. -/
def ssig0 (x : Nat) : Nat := rotr 7 x ^^^ rotr 18 x ^^^ (x >>> 3)

/-- Small sigma 1. -/
def ssig1 (x : Nat) : Nat := rotr 17 x ^^^ rotr 19 x ^^^ (x >>> 10)

/-- Choice function; the complement is taken by xor with the 32-bit mask. -/
def ch (x y z : Nat) : Nat := (x &&& y) ^^^ ((x ^^^ 4294967295) &&& z)

/-- Majority function. -/
def maj (x y z : Nat) : Nat := (x &&& y) ^^^ (x &&& z) ^^^ (y &&& z)

/-- The 64 round constants of SHA-256. -/
def K : List Nat :=
  [1116352408, 1899447441, 3049323471, 3921009573, 961987163, 1508970993,
   2453635748, 2870763221, 3624381080, 310598401, 607225278, 1426881987,
   1925078388, 2162078206, 2614888103, 3248222580, 3835390401, 4022224774,
   264347078, 604807628, 770255983, 1249150122, 1555081692, 1996064986,
   2554220882, 2821834349, 2952996808, 3210313671, 3336571891, 3584528711,
   113926993, 338241895, 666307205, 773529912, 1294757372, 1396182291,
   1695183700, 1986661051, 2177026350, 2456956037, 2730485921, 2820302411,
   3259730800, 3345764771, 3516065817, 3600352804, 4094571909, 275423344,
   430227734, 506948616, 659060556, 883997877, 958139571, 1322822218,
   1537002063, 1747873779, 1955562222, 2024104815, 2227730452, 2361852424,
   2428436474, 2756734187, 3204031479, 3329325298]

/-- The initial hash state of SHA-256. -/
def initH : List Nat :=
  [1779033703, 3144134277, 1013904242, 2773480762,
   1359893119, 2600822924, 528734635, 1541459225]

/-- Group a byte list into big-endian 32-bit words; a trailing fragment of
fewer than four bytes is dropped (padded input is always a multiple). -/
def bytesToWords : List Nat → List Nat
  | a :: b :: c :: d :: rest => (((a * 256 + b) * 256 + c) * 256 + d) :: bytesToWords rest
  | _ => []

/-- Group a word list into 16-word blocks; a trailing fragment is dropped
(padded input is always a multiple). -/
def chunkWords16 : List Nat → List (List Nat)
  | w0 :: w1 :: w2 :: w3 :: w4 :: w5 :: w6 :: w7 ::
    w8 :: w9 :: w10 :: w11 :: w12 :: w13 :: w14 :: w15 :: rest =>
      [w0, w1, w2, w3, w4, w5, w6, w7, w8, w9, w10, w11, w12, w13, w14, w15]
        :: chunkWords16 rest
  | _ => []

/-- Message-schedule extension, operating on the reversed schedule so the
most recent word is at the head: `n` extension steps. -/
def extendLoop : Nat → List Nat → List Nat
  | 0, wrev => wrev
  | n + 1, wrev =>
      extendLoop n
        (((ssig1 (wrev.getD 1 0) + wrev.getD 6 0 + ssig0 (wrev.getD 14 0)
            + wrev.getD 15 0) % M32) :: wrev)

/-- The 64-word message schedule of one block. -/
def schedule (block : List Nat) : List Nat := (extendLoop 48 block.reverse).reverse

/-- One compression round; the state is the eight working variables. -/
def round (st : List Nat) (kw : Nat × Nat) : List Nat :=
  let a := st.getD 0 0
  let b := st.getD 1 0
  let c := st.getD 2 0
  let d := st.getD 3 0
  let e := st.getD 4 0
  let f := st.getD 5 0
  let g := st.getD 6 0
  let h := st.getD 7 0
  let t1 := (h + bsig1 e + ch e f g + kw.1 + kw.2) % M32
  let t2 := (bsig0 a + maj a b c) % M32
  [(t1 + t2) % M32, a, b, c, (d + t1) % M32, e, f, g]

/-- Compression of one 16-word block into the running hash state. -/
def compress (h : List Nat) (block : List Nat) : List Nat :=
  let final := (K.zip (schedule block)).foldl round h
  (h.zip final).map (fun p => (p.1 + p.2) % M32)

/-- Merkle-Damgard padding: a 0x80 byte, zeros to 56 mod 64, and the
message length in bits on eight big-endian bytes. -/
def padMessage (msg : List Nat) : List Nat :=
  msg ++ 128 :: List.replicate ((64 - ((msg.length + 9) % 64)) % 64) 0
      ++ beBytes 8 (8 * msg.length)

/-- Serialize the eight-word state back to 32 bytes. -/
def wordsToBytes (ws : List Nat) : List Nat := (ws.map (beBytes 4)).flatten

end SHA256

/-- SHA-256 of a byte list, as the `sha2` crate and the Solana
`hash` function compute it. -/
def sha256 (msg : List Nat) : List Nat :=
  SHA256.wordsToBytes
    ((SHA256.chunkWords16 (SHA256.bytesToWords (SHA256.padMessage msg))).foldl
      SHA256.compress SHA256.initH)

/-! ## share/src/state.rs — L2 state, Merkle roots, inclusion proofs -/

namespace Share

/-- A withdrawal record (`share/src/state.rs`, `struct Withdrawal`).
Addresses are the byte contents of the Rust `String` fields. -/
structure Withdrawal where
  «from» : List Nat
  «to» : List Nat
  amount : Nat
  index : Nat
deriving DecidableEq, Repr

/-- The L2 state (`share/src/state.rs`, `struct State`): balances are a
`HashMap<String, u128>` modelled as an association list with unique keys,
in iteration order; the withdrawal queue is a `Vec<Withdrawal>`. -/
structure State where
  balances : List (List Nat × Nat)
  withdrawal_queue : List Withdrawal
deriving DecidableEq, Repr

/-- `calculate_user_hash`: SHA-256 of the address bytes followed by the
16-byte big-endian balance. -/
def calculate_user_hash (address : List Nat) (balance : Nat) : List Nat :=
  sha256 (address ++ beBytes 16 balance)

/-- `calculate_withdrawal_hash`: SHA-256 of from, to, 8-byte big-endian
amount and 8-byte big-endian index. -/
def calculate_withdrawal_hash (w : Withdrawal) : List Nat :=
  sha256 (w.«from» ++ w.«to» ++ beBytes 8 w.amount ++ beBytes 8 w.index)

/-- One bottom-up Merkle level: the `for i in (0..nodes.len()).step_by(2)`
body of the tree loops in `state.rs`, pairing node `i` with node `i + 1`
and hashing an unpaired final node with itself (`right = left.clone()`). -/
def nextLevel : List (List Nat) → List (List Nat)
  | [] => []
  | [a] => [sha256 (a ++ a)]
  | a :: b :: rest => sha256 (a ++ b) :: nextLevel rest

/-- The `while nodes.len() > 1` loop of the root computations, embedded
with fuel; callers pass the level length, which dominates the level count. -/
def buildLoop : Nat → List (List Nat) → List (List Nat)
  | 0, nodes => nodes
  | fuel + 1, nodes =>
      if nodes.length ≤ 1 then nodes else buildLoop fuel (nextLevel nodes)

/-- `State::calculate_state_root`: leaf per balance entry, odd leaf count
padded by duplicating the last leaf, then the bottom-up loop; `None` for an
empty balance map. -/
def State.calculate_state_root (s : State) : Option (List Nat) :=
  if s.balances = [] then none
  else
    let leaf_hashes := s.balances.map (fun p => calculate_user_hash p.1 p.2)
    let leaf_hashes :=
      if leaf_hashes.length % 2 = 1 then
        leaf_hashes ++ [leaf_hashes.getD (leaf_hashes.length - 1) zero32]
      else leaf_hashes
    (buildLoop leaf_hashes.length leaf_hashes).head?

/-- `State::calculate_withdrawal_root`: leaf per queued withdrawal, odd leaf
count padded with the all-zero leaf, then the same bottom-up loop. -/
def State.calculate_withdrawal_root (s : State) : Option (List Nat) :=
  if s.withdrawal_queue = [] then none
  else
    let leaf_hashes := s.withdrawal_queue.map calculate_withdrawal_hash
    let leaf_hashes :=
      if leaf_hashes.length % 2 = 1 then leaf_hashes ++ [zero32]
      else leaf_hashes
    (buildLoop leaf_hashes.length leaf_hashes).head?

/-- The proof-collecting variant of the bottom-up loop in
`generate_withdrawal_merkle_proof`: per level, record the sibling of the
current index (or the node itself when the sibling position is absent),
then advance to the next level with the halved index. Returns the collected
siblings together with the final node list, which holds the root. -/
def proofLoop : Nat → List (List Nat) → Nat → (List (List Nat) × List (List Nat))
  | 0, nodes, _ => ([], nodes)
  | fuel + 1, nodes, current_index =>
      if nodes.length ≤ 1 then ([], nodes)
      else
        let sibling_index :=
          if current_index % 2 = 0 then current_index + 1 else current_index - 1
        let sib :=
          if sibling_index < nodes.length then nodes.getD sibling_index zero32
          else nodes.getD current_index zero32
        let r := proofLoop fuel (nextLevel nodes) (current_index / 2)
        (sib :: r.1, r.2)

/-- `State::generate_withdrawal_merkle_proof` over the queue prefix
`[0, range)`: leaf hashes of the prefix, the leaf at `index` taken before
padding, zero-leaf padding for an odd count, then the proof-collecting
loop. The source guards only `queue.is_empty() || index >= queue.len()`;
a `range` beyond the queue length or a `index >= range` makes the Rust
slice or leaf indexing panic, modelled as `none`. -/
def State.generate_withdrawal_merkle_proof (s : State) (index range : Nat) :
    Option (List Nat × List (List Nat) × Nat × List Nat) :=
  if s.withdrawal_queue = [] ∨ s.withdrawal_queue.length ≤ index then none
  else if s.withdrawal_queue.length < range ∨ range ≤ index then none
  else
    let history_queue := s.withdrawal_queue.take range
    let leaf_hashes := history_queue.map calculate_withdrawal_hash
    let leaf_hash := leaf_hashes.getD index zero32
    let leaf_hashes :=
      if leaf_hashes.length % 2 = 1 then leaf_hashes ++ [zero32]
      else leaf_hashes
    let r := proofLoop leaf_hashes.length leaf_hashes index
    match r.2.head? with
    | some root => some (leaf_hash, r.1, index, root)
    | none => none

/-! ## share/src/transaction.rs — transaction parsing and blocks -/

/-- A parsed transfer intent (`share/src/transaction.rs`, `TransferOp`).
The `from`/`to` strings are modelled by the referenced key bytes. -/
structure TransferOp where
  «from» : List Nat
  «to» : List Nat
  amount : Nat
deriving DecidableEq, Repr

/-- A compiled instruction: program id index, account index list,
instruction data bytes. -/
structure CompiledInstruction where
  program_id_index : Nat
  accounts : List Nat
  data : List Nat
deriving DecidableEq, Repr

/-- The message part of a transaction: account keys (32-byte each) and
compiled instructions. -/
structure Message where
  account_keys : List (List Nat)
  instructions : List CompiledInstruction
deriving DecidableEq, Repr

/-- A signed transaction envelope. -/
structure Transaction where
  signatures : List (List Nat)
  message : Message
deriving DecidableEq, Repr

/-- The system program id (`solana_sdk::system_program::ID`), the all-zero
32-byte key. -/
def system_program_ID : List Nat := List.replicate 32 0

/-- Parse failures of the share parser; `parsing_instruction` raises this
when `program_id_index` is out of range (the `anyhow` error of the
source). -/
inductive ParseError where
  | invalidProgramIdIndex
deriving DecidableEq, Repr

/-- `bincode::deserialize::<SystemInstruction>` restricted to what the
parser inspects: variant tag 2 (little-endian `u32`) is `Transfer`, with a
little-endian `u64` lamports payload; trailing bytes are ignored, as
`bincode::deserialize` does. Any other tag, or a short buffer, makes
`parsing_sys_instruction` fall through to `Ok(None)` (the `Ok(_)` and
`Err(_)` arms both do), so those cases collapse to `none` here. -/
def decodeTransferLamports (data : List Nat) : Option Nat :=
  match data with
  | 2 :: 0 :: 0 :: 0 :: b0 :: b1 :: b2 :: b3 :: b4 :: b5 :: b6 :: b7 :: _ =>
      some (b0 + 256 * (b1 + 256 * (b2 + 256 * (b3 + 256 *
        (b4 + 256 * (b5 + 256 * (b6 + 256 * b7)))))))
  | _ => none

/-- `parsing_sys_instruction` (share): empty data yields `None`; a decoded
`Transfer { lamports }` with at least two in-range account references
yields the transfer op; every other case yields `None`. The function never
returns an error in the source, so its `Result` layer is dropped. -/
def parsing_sys_instruction (ins : CompiledInstruction) (txn : Transaction) :
    Option TransferOp :=
  if ins.data = [] then none
  else
    match decodeTransferLamports ins.data with
    | some lamports =>
        if 2 ≤ ins.accounts.length then
          let from_index := ins.accounts.getD 0 0
          let to_index := ins.accounts.getD 1 0
          if from_index < txn.message.account_keys.length
              ∧ to_index < txn.message.account_keys.length then
            some { «from» := txn.message.account_keys.getD from_index [],
                   «to» := txn.message.account_keys.getD to_index [],
                   amount := lamports }
          else none
        else none
    | none => none

/-- `parsing_instruction` (share): errors when `program_id_index` is out of
range; for the system program it calls `parsing_sys_instruction` and
discards the returned value (`parsing_sys_instruction(instruction, txn)?;`),
then falls through to `Ok(None)`, exactly as in the source. -/
def parsing_instruction (ins : CompiledInstruction) (txn : Transaction) :
    Except ParseError (Option TransferOp) :=
  if ins.program_id_index < txn.message.account_keys.length then
    if txn.message.account_keys.getD ins.program_id_index [] = system_program_ID then
      let _ := parsing_sys_instruction ins txn
      .ok none
    else .ok none
  else .error .invalidProgramIdIndex

/-- An L2 block (`share/src/transaction.rs`, `struct Block`). -/
structure Block where
  block_num : Nat
  txns : List Transaction
  txns_root : Option (List Nat)
  prev_state_root : Option (List Nat)
  post_state_root : Option (List Nat)
deriving DecidableEq, Repr

/-- `Block::new`: transactions installed, number zero, roots unset. -/
def Block.new (txns : List Transaction) : Block :=
  { block_num := 0, txns := txns, txns_root := none,
    prev_state_root := none, post_state_root := none }

/-- The reserved L2 withdrawal sink address (`share/src/lib.rs`,
`WITHDRAWAL_ADDRESS = "AF111111111111111111111111111111"`), as its ASCII
bytes. -/
def WITHDRAWAL_ADDRESS : List Nat := 65 :: 70 :: List.replicate 30 49

end Share

/-! ## solana-program/programs/l2-state — the on-chain settlement program -/

namespace L2State

/-- Business error codes of the on-chain program (`biz_error.rs`), extended
with the two runtime failures the program surfaces: a failed proof
verification (`ProgramError::InvalidInstructionData` in `prove_state`) and
a failed lamport adjustment (the checked `sub_lamports`/`add_lamports`). -/
inductive ErrorCode where
  | NotApproved
  | BatchNotExist
  | UserBalanceInsufficent
  | WithdrawalRootNotFinalized
  | InvalidWithdrawalInclusionProof
  | VerifyFailed
  | LamportArithmetic
deriving DecidableEq, Repr

/-- First-match association lookup with a default, the shape shared by
`BridgeVault::get_balance`, `FinalizedWithdrawalRoots::get_finalized` and
`FinalizedWithdrawals::get_finalized` (`iter().find(..).map(..).unwrap_or`). -/
def assocGet [DecidableEq κ] (entries : List (κ × α)) (key : κ) (dflt : α) : α :=
  match entries.find? (fun e => e.1 = key) with
  | some e => e.2
  | none => dflt

/-- First-match association update, the shape shared by
`BridgeVault::set_balance` and the two `set_finalized` methods: overwrite
the first entry with the key, or push a new entry at the end. -/
def assocSet [DecidableEq κ] : List (κ × α) → κ → α → List (κ × α)
  | [], key, v => [(key, v)]
  | e :: rest, key, v =>
      if e.1 = key then (key, v) :: rest else e :: assocSet rest key v

/-- `util.rs`, `hash_nested_vector`: the zero hash for an empty outer
vector, otherwise SHA-256 of the concatenation. -/
def hash_nested_vector (data : List (List Nat)) : List Nat :=
  if data = [] then zero32 else sha256 data.flatten

/-- The sibling-folding loop of `util.rs`, `verify_merkle_proof`: at height
`h`, combine with the sibling on the left when bit `h` of `index` is one,
on the right otherwise. -/
def verifyLoop : List Nat → List (List Nat) → Nat → Nat → List Nat
  | node, [], _, _ => node
  | node, sibling :: rest, index, height =>
      verifyLoop
        (if (index >>> height) &&& 1 = 1 then sha256 (sibling ++ node)
         else sha256 (node ++ sibling))
        rest index (height + 1)

/-- `util.rs`, `verify_merkle_proof`: fold the siblings from the leaf and
compare with the root. -/
def verify_merkle_proof (leaf_hash : List Nat) (proof : List (List Nat))
    (index : Nat) (root : List Nat) : Bool :=
  verifyLoop leaf_hash proof index 0 == root

/-- An on-chain batch record (`state.rs`, `struct BatchData`). -/
structure BatchData where
  batch_index : Nat
  start_block_num : Nat
  end_block_num : Nat
  batch_hash : List Nat
  prev_state_root : List Nat
  post_state_root : List Nat
  withdrawal_root : List Nat
deriving DecidableEq, Repr

/-- A submitted batch proof (`verifier.rs`, `struct BatchProof`). -/
structure BatchProof where
  batch_index : Nat
  proof : List Nat
deriving DecidableEq, Repr

/-- The withdrawal instruction data (`bridge.rs`, `struct WithdrawalData`). -/
structure WithdrawalData where
  amount : Nat
  index : Nat
  withdraw_root : List Nat
  withdrawal_proof : List (List Nat)
deriving DecidableEq, Repr

/-- The logical content of the five program-derived accounts
(`batch_storage`, `last_finalized_batch_index`, `bridge_vault`,
`finalized_withdrawal_roots`, `finalized_withdrawals`), together with the
lamport balance of the vault account. Authority keys are omitted: no
claim depends on them. -/
structure Settlement where
  batches : List BatchData
  last_finalized_batch_index : Nat
  vault_balances : List (List Nat × Nat)
  withdrawal_roots : List (List Nat × Bool)
  finalized_withdrawals : List (List Nat × Bool)
  vault_lamports : Nat
deriving DecidableEq, Repr

/-- `state.rs`, `initialize`: every store empty and the last finalized
batch index zero. -/
def Settlement.init : Settlement :=
  { batches := [], last_finalized_batch_index := 0, vault_balances := [],
    withdrawal_roots := [], finalized_withdrawals := [], vault_lamports := 0 }

/-- The public-input commitment recomputed by `verifier.rs`, `prove_state`:
`hash_nested_vector` of previous state root, post state root, withdrawal
root and batch hash, in that order. -/
def prove_state_pi_hash (batch : BatchData) : List Nat :=
  hash_nested_vector
    [batch.prev_state_root, batch.post_state_root,
     batch.withdrawal_root, batch.batch_hash]

/-- `verifier.rs`, `prove_state`. The Groth16 verifier
(`sp1_solana::verify_proof`) is external to the repository and passed in as
the `verify` oracle over the proof bytes and the public-input bytes. On
success the last finalized batch index is overwritten with the proven
index and the batch withdrawal root is marked finalized. -/
def prove_state (verify : List Nat → List Nat → Bool) (st : Settlement)
    (batch_proof : BatchProof) : Except ErrorCode Settlement :=
  match st.batches.find? (fun b => b.batch_index = batch_proof.batch_index) with
  | none => .error .BatchNotExist
  | some batch =>
      if verify batch_proof.proof (prove_state_pi_hash batch) then
        .ok { st with
              last_finalized_batch_index := batch_proof.batch_index,
              withdrawal_roots := assocSet st.withdrawal_roots batch.withdrawal_root true }
      else .error .VerifyFailed

/-- `state.rs`, `commit_batch`: hash the DA blob, then overwrite the record
with the same batch index or append a new one. -/
def commit_batch (st : Settlement) (batch_index start_block_num end_block_num : Nat)
    (blocks : List (List Nat)) (prev_state_root post_state_root withdrawal_root : List Nat) :
    Settlement × List Nat :=
  let batch_hash := hash_nested_vector blocks
  let batch_data : BatchData :=
    { batch_index := batch_index, start_block_num := start_block_num,
      end_block_num := end_block_num, batch_hash := batch_hash,
      prev_state_root := prev_state_root, post_state_root := post_state_root,
      withdrawal_root := withdrawal_root }
  let batches :=
    if st.batches.any (fun b => b.batch_index = batch_index) then
      st.batches.map (fun b => if b.batch_index = batch_index then batch_data else b)
    else st.batches ++ [batch_data]
  ({ st with batches := batches }, batch_hash)

/-- `bridge.rs`, `withdrawal`. Checks, in source order: the withdraw root
is finalized; the recomputed leaf (sender bytes, destination bytes,
big-endian amount, big-endian index) passes `verify_merkle_proof` against
that root; the vault balance of the sender covers the amount. It then
marks the leaf finalized, debits the vault balance, moves the lamports
from the vault to the destination and succeeds. `to_lamports` is the
lamport balance of the destination account; the pair returned on success
is the new settlement state and the new destination balance. The checked
`sub_lamports`/`add_lamports` failures are surfaced as `LamportArithmetic`
(`u64` bounds on the destination). -/
def withdrawal (st : Settlement) (sender to_key : List Nat) (w : WithdrawalData)
    (to_lamports : Nat) : Except ErrorCode (Settlement × Nat) :=
  if !(assocGet st.withdrawal_roots w.withdraw_root false) then
    .error .WithdrawalRootNotFinalized
  else
    let withdrawal_data := sender ++ to_key ++ beBytes 8 w.amount ++ beBytes 8 w.index
    let withdrawal_data_hash := sha256 withdrawal_data
    if !(verify_merkle_proof withdrawal_data_hash w.withdrawal_proof w.index w.withdraw_root) then
      .error .InvalidWithdrawalInclusionProof
    else
      let current_amount := assocGet st.vault_balances sender 0
      if current_amount < w.amount then .error .UserBalanceInsufficent
      else
        let finalized := assocSet st.finalized_withdrawals withdrawal_data_hash true
        let new_balance := current_amount - w.amount
        let vault := assocSet st.vault_balances sender new_balance
        if st.vault_lamports < w.amount then .error .LamportArithmetic
        else if 18446744073709551616 ≤ to_lamports + w.amount then .error .LamportArithmetic
        else
          .ok ({ st with
                 finalized_withdrawals := finalized,
                 vault_balances := vault,
                 vault_lamports := st.vault_lamports - w.amount },
               to_lamports + w.amount)

end L2State

/-! ## prover/program/src/main.rs — the zkVM guest digest computation -/

namespace Prover

/-- `calculate_da_hash`: SHA-256 over the concatenated serialized blocks. -/
def calculate_da_hash (blocks_bytes : List Nat) : List Nat := sha256 blocks_bytes

/-- `calculate_pi_hash` of the guest program: SHA-256 over the previous
state root, the post state root and the DA hash — and nothing else. -/
def calculate_pi_hash (prev_state_root post_state_root da_hash : List Nat) : List Nat :=
  sha256 (prev_state_root ++ post_state_root ++ da_hash)

end Prover

/-! ## sequencer/src/executor.rs — mempool executor -/

namespace Executor

/-- The private transfer op of the executor (`executor.rs`,
`struct TransferOp`), distinct from the share one. -/
structure TransferOp where
  «from» : List Nat
  «to» : List Nat
  amount : Nat
deriving DecidableEq, Repr

/-- The balance map `HashMap<String, u128>` as an association list. -/
abbrev Balances : Type := List (List Nat × Nat)

/-- `balances.get(&k).copied().unwrap_or(0)`. -/
def getBalance (balances : Balances) (key : List Nat) : Nat :=
  L2State.assocGet balances key 0

/-- `balances.insert(k, v)` on the association-list model. -/
def setBalance (balances : Balances) (key : List Nat) (v : Nat) : Balances :=
  L2State.assocSet balances key v

/-- The body of one iteration of the `transfer` loop after the balance
check: debit the sender, then credit the destination from its re-read
balance, in that order (so a self-transfer nets to no change). The `u128`
credit is taken modulo `2 ^ 128`. -/
def applyOp (balances : Balances) (op : TransferOp) : Balances :=
  let from_balance := getBalance balances op.«from»
  let balances := setBalance balances op.«from» (from_balance - op.amount)
  let to_balance := getBalance balances op.«to»
  setBalance balances op.«to» ((to_balance + op.amount) % 340282366920938463463374607431768211456)

/-- `executor.rs`, `fn transfer`: apply the ops in order; an op whose
sender balance is below its amount makes the function return
`Err("Insufficient balance for transfer")` immediately, leaving the map as
mutated by the earlier ops. The result is the final map and the success
flag (`Ok` versus `Err`). -/
def transfer (balances : Balances) : List TransferOp → Balances × Bool
  | [] => (balances, true)
  | op :: rest =>
      let from_balance := getBalance balances op.«from»
      if from_balance < op.amount then (balances, false)
      else transfer (applyOp balances op) rest

/-- `Executor::parsing_sys_instruction` (the executor has its own copy,
different from the share one): no data decoding beyond the emptiness
check, and a hardcoded amount of 1000000. -/
def parsing_sys_instruction (ins : Share.CompiledInstruction)
    (txn : Share.Transaction) : Option TransferOp :=
  if ins.data = [] then none
  else if 2 ≤ ins.accounts.length then
    let from_index := ins.accounts.getD 0 0
    let to_index := ins.accounts.getD 1 0
    if from_index < txn.message.account_keys.length
        ∧ to_index < txn.message.account_keys.length then
      some { «from» := txn.message.account_keys.getD from_index [],
             «to» := txn.message.account_keys.getD to_index [],
             amount := 1000000 }
    else none
  else none

/-- `Executor::parsing_instruction`: same shape as the share copy — the
result of `parsing_sys_instruction` is discarded and both branches fall
through to `Ok(None)`; an out-of-range `program_id_index` is an error. -/
def parsing_instruction (ins : Share.CompiledInstruction)
    (txn : Share.Transaction) : Except Share.ParseError (Option TransferOp) :=
  if ins.program_id_index < txn.message.account_keys.length then
    if txn.message.account_keys.getD ins.program_id_index []
        = Share.system_program_ID then
      let _ := parsing_sys_instruction ins txn
      .ok none
    else .ok none
  else .error .invalidProgramIdIndex

/-- The instruction loop of `Executor::pre_process`: each instruction is
parsed and its value dropped (`self.parsing_instruction(instruction,
&txn)?;`), an error aborts the loop, and the function ends with
`Ok(None)`. -/
def preProcessLoop (txn : Share.Transaction) :
    List Share.CompiledInstruction → Except Share.ParseError (Option TransferOp)
  | [] => .ok none
  | ins :: rest =>
      match parsing_instruction ins txn with
      | .error e => .error e
      | .ok _ => preProcessLoop txn rest

/-- `Executor::pre_process`: reads `txn.signatures[0]` first, which panics
on an empty signature vector (modelled as the outer `none`); then runs the
instruction loop. -/
def pre_process (txn : Share.Transaction) :
    Option (Except Share.ParseError (Option TransferOp)) :=
  if txn.signatures = [] then none
  else some (preProcessLoop txn txn.message.instructions)

/-- The transfer-collection loop of `Executor::execute`:
`transfers.push(self.pre_process(txn).unwrap().unwrap())` per drained
transaction; any panic outcome (missing signature, parse error via the
outer unwrap, or the `None` payload via the inner unwrap) is `none`. -/
def collectTransfers : List Share.Transaction → Option (List TransferOp)
  | [] => some []
  | txn :: rest =>
      match pre_process txn with
      | some (.ok (some op)) => (collectTransfers rest).map (op :: ·)
      | _ => none

/-- `Executor::execute`: collect one transfer per drained transaction (a
panic is `none`), apply `transfer` to the balances discarding its result
(`let _ = transfer(..)` keeps the mutated map), and return the new block
over the drained transactions. -/
def execute (balances : Balances) (mempool : List Share.Transaction) :
    Option (Balances × Share.Block) :=
  match collectTransfers mempool with
  | none => none
  | some transfers => some ((transfer balances transfers).1, Share.Block.new mempool)

/-- The effect of `Executor::execute` on the shared `STATE` (lines 46 to 48
of `executor.rs`): only `state.balances` is touched; the withdrawal queue
is not referenced anywhere in the executor. -/
def applyTransfers (st : Share.State) (ops : List TransferOp) : Share.State :=
  { st with balances := (transfer st.balances ops).1 }

end Executor

/-! ## sequencer/src/batcher/tx_batcher.rs — batch block collection -/

namespace TxBatcher

/-- `MAX_BLOCK_COUNT_IN_BATCH`. -/
def MAX_BLOCK_COUNT_IN_BATCH : Nat := 256

/-- The read loop of `collect_blocks_for_batch` over keys `block_{i}` for
`i` in `[start, start + count)`: a missing key returns the empty vector
immediately (discarding what was collected), an unparseable value is
skipped, a parsed block is pushed. The store is modelled as
`db : Nat → Option (Option Block)` — outer `none` for a missing key, inner
`none` for a present but unparseable value. -/
def collectLoop (db : Nat → Option (Option Share.Block)) :
    Nat → Nat → List Share.Block → List Share.Block
  | _, 0, acc => acc
  | i, cnt + 1, acc =>
      match db i with
      | none => []
      | some none => collectLoop db (i + 1) cnt acc
      | some (some b) => collectLoop db (i + 1) cnt (acc ++ [b])

/-- `TxBatcher::collect_blocks_for_batch`: the block count is
`latest_block_num_local - start_block_num` capped at 256, computed in
`u64` arithmetic — when `start_block_num` exceeds `latest_block_num_local`
the subtraction underflows (a panic under checked arithmetic), modelled as
`none`; otherwise the read loop runs and the function returns `Ok`. -/
def collect_blocks_for_batch (db : Nat → Option (Option Share.Block))
    (start_block_num latest_block_num_local : Nat) : Option (List Share.Block) :=
  if latest_block_num_local < start_block_num then none
  else
    let blocks_count :=
      if MAX_BLOCK_COUNT_IN_BATCH < latest_block_num_local - start_block_num then
        MAX_BLOCK_COUNT_IN_BATCH
      else latest_block_num_local - start_block_num
    some (collectLoop db start_block_num blocks_count [])

end TxBatcher

/-! ## Spec-side reference definitions and characterization helpers -/

namespace Executor

/-- Pure sequential application of transfer ops, used to characterize
`transfer`. -/
def applyOps (balances : Balances) (ops : List TransferOp) : Balances :=
  ops.foldl applyOp balances

/-- Position of the first op whose sender balance, after the earlier ops
have been applied, is below its amount. -/
def firstInsufficient (balances : Balances) : List TransferOp → Option Nat
  | [] => none
  | op :: rest =>
      if getBalance balances op.«from» < op.amount then some 0
      else (firstInsufficient (applyOp balances op) rest).map (· + 1)

/-- Modelled from the spec: the drop-and-continue transfer semantics the
specification describes for the sequencer executor — an op with an
insufficient sender balance is skipped and execution continues with the
next op. Stated for comparison with `transfer`. -/
def transfer_spec_drop_continue (balances : Balances) : List TransferOp → Balances
  | [] => balances
  | op :: rest =>
      if getBalance balances op.«from» < op.amount then
        transfer_spec_drop_continue balances rest
      else transfer_spec_drop_continue (applyOp balances op) rest

end Executor

/-! ## Concrete inputs used by the counterexample and evaluation theorems -/

/-- Sender key for the bridge replay scenario: 32 bytes of value 1. -/
def c1Sender : List Nat := List.replicate 32 1

/-- Destination key for the bridge replay scenario: 32 bytes of value 2. -/
def c1To : List Nat := List.replicate 32 2

/-- The withdrawal leaf the bridge recomputes for the replay scenario:
sender, destination, amount 200, index 0. -/
def c1Leaf : List Nat := sha256 (c1Sender ++ c1To ++ beBytes 8 200 ++ beBytes 8 0)

/-- A finalized withdrawal root for the single-leaf tree over `c1Leaf`
(zero-padded sibling, as the withdrawal tree pads). -/
def c1Root : List Nat := sha256 (c1Leaf ++ zero32)

/-- The withdrawal instruction data for the replay scenario. -/
def c1Data : L2State.WithdrawalData :=
  { amount := 200, index := 0, withdraw_root := c1Root,
    withdrawal_proof := [zero32] }

/-- Bridge state before the first withdrawal of the replay scenario: the
root is finalized, the sender has vault balance 400, the vault holds 1000
lamports, and no leaf is marked finalized. -/
def c1State : L2State.Settlement :=
  { batches := [], last_finalized_batch_index := 0,
    vault_balances := [(c1Sender, 400)],
    withdrawal_roots := [(c1Root, true)],
    finalized_withdrawals := [], vault_lamports := 1000 }

/-- The settlement state for the frontier-regression scenario: the frontier
is at 5 while batch 2 is still in storage. -/
def c6State : L2State.Settlement :=
  { batches := [{ batch_index := 2, start_block_num := 1, end_block_num := 1,
                  batch_hash := zero32, prev_state_root := zero32,
                  post_state_root := zero32, withdrawal_root := zero32 }],
    last_finalized_batch_index := 5, vault_balances := [],
    withdrawal_roots := [], finalized_withdrawals := [], vault_lamports := 0 }

/-- The L2 state for the withdrawal-intent scenario: address `"A"` (byte
65) holds 500; the withdrawal queue is empty. -/
def c3State : Share.State :=
  { balances := [([65], 500)], withdrawal_queue := [] }

/-- The withdrawal-intent transfer op: 200 from `"A"` to the withdrawal
sink address. -/
def c3Op : Executor.TransferOp :=
  { «from» := [65], «to» := Share.WITHDRAWAL_ADDRESS, amount := 200 }

/-- The withdrawal record the specification says the executor appends for
`c3Op`: from and to both the sender, amount 200, index 0. -/
def c3ClaimedRecord : Share.Withdrawal :=
  { «from» := [65], «to» := [65], amount := 200, index := 0 }

/-- Account key of value 3 for the parser scenario. -/
def c4KeyA : List Nat := List.replicate 32 3

/-- Account key of value 4 for the parser scenario. -/
def c4KeyB : List Nat := List.replicate 32 4

/-- A system-program transfer instruction of 7 lamports from key 0 to
key 1: bincode tag 2 (little-endian u32) then the lamports (little-endian
u64). -/
def c4Ins : Share.CompiledInstruction :=
  { program_id_index := 2, accounts := [0, 1],
    data := [2, 0, 0, 0, 7, 0, 0, 0, 0, 0, 0, 0] }

/-- A signed transaction whose single instruction is the transfer
`c4Ins`. -/
def c4Txn : Share.Transaction :=
  { signatures := [[9]],
    message := { account_keys := [c4KeyA, c4KeyB, Share.system_program_ID],
                 instructions := [c4Ins] } }

/-- Balances for the insufficient-funds scenario: `"A"` (byte 65) holds
50, `"C"` (byte 67) holds 20. -/
def c7Balances : Executor.Balances := [([65], 50), ([67], 20)]

/-- The op list for the insufficient-funds scenario: first 100 from `"A"`
to `"B"` (insufficient), then 10 from `"C"` to `"D"` (sufficient). -/
def c7Ops : List Executor.TransferOp :=
  [{ «from» := [65], «to» := [66], amount := 100 },
   { «from» := [67], «to» := [68], amount := 10 }]

/-- A three-entry withdrawal queue for the inclusion-proof round trip. -/
def c8State : Share.State :=
  { balances := [],
    withdrawal_queue :=
      [{ «from» := [1], «to» := [1], amount := 10, index := 0 },
       { «from» := [2], «to» := [2], amount := 20, index := 1 },
       { «from» := [3], «to» := [3], amount := 30, index := 2 }] }

/-! ## Helper lemmas -/

set_option maxRecDepth 40000

/-- Sanity check of the SHA-256 embedding against the FIPS 180-4 test
vector for the message `"abc"`. -/
theorem sha256_abc_vector :
    sha256 [97, 98, 99] =
      [186, 120, 22, 191, 143, 1, 207, 234, 65, 65, 64, 222, 93, 174, 34, 35,
       176, 3, 97, 163, 150, 23, 122, 156, 180, 16, 255, 97, 242, 0, 21, 173] := by
  decide

/-- One Merkle level halves the node count, rounding up. -/
theorem nextLevel_length :
    ∀ ns : List (List Nat), (Share.nextLevel ns).length = (ns.length + 1) / 2
  | [] => by simp [Share.nextLevel]
  | [_] => by simp [Share.nextLevel]
  | _ :: _ :: rest => by
      simp [Share.nextLevel, nextLevel_length rest]
      omega

/-- The node at position `k` of the next Merkle level combines the nodes at
positions `2 k` and `2 k + 1` of the current level, the latter replaced by
the former when the level ends at `2 k`. -/
theorem nextLevel_getD :
    ∀ (ns : List (List Nat)) (k : Nat), 2 * k < ns.length →
      (Share.nextLevel ns).getD k zero32 =
        sha256 (ns.getD (2 * k) zero32 ++
          (if 2 * k + 1 < ns.length then ns.getD (2 * k + 1) zero32
           else ns.getD (2 * k) zero32))
  | [], k, h => by simp at h
  | [a], k, h => by
      have hk : k = 0 := by simp at h; omega
      subst hk
      simp [Share.nextLevel]
  | a :: b :: rest, 0, h => by simp [Share.nextLevel]
  | a :: b :: rest, k + 1, h => by
      have hrest : 2 * k < rest.length := by simp at h; omega
      have := nextLevel_getD rest k hrest
      simp only [Share.nextLevel, List.getD_cons_succ]
      rw [this]
      have h2 : 2 * (k + 1) = 2 * k + 1 + 1 := by omega
      have h3 : 2 * (k + 1) + 1 = 2 * k + 1 + 1 + 1 := by omega
      simp only [h2, h3, List.getD_cons_succ, List.length_cons]
      have hiff : 2 * k + 1 + 1 + 1 < rest.length + 1 + 1 ↔ 2 * k + 1 < rest.length := by
        omega
      simp only [hiff]

/-- With fuel at least the level length, the proof-collecting loop ends
with exactly one node, the root. -/
theorem proofLoop_snd_length :
    ∀ (fuel : Nat) (ns : List (List Nat)) (i : Nat), ns ≠ [] → ns.length ≤ fuel + 1 →
      ((Share.proofLoop fuel ns i).2).length = 1
  | 0, ns, i, hne, hlen => by
      have h0 : ns.length ≠ 0 := by simpa [List.length_eq_zero] using hne
      simp only [Share.proofLoop]
      omega
  | fuel + 1, ns, i, hne, hlen => by
      have h0 : ns.length ≠ 0 := by simpa [List.length_eq_zero] using hne
      by_cases h : ns.length ≤ 1
      · simp only [Share.proofLoop, if_pos h]
        omega
      · have hnl := nextLevel_length ns
        have hpos : 0 < (Share.nextLevel ns).length := by rw [hnl]; omega
        have ih := proofLoop_snd_length fuel (Share.nextLevel ns) (i / 2)
          (List.ne_nil_of_length_pos hpos) (by omega)
        simpa [Share.proofLoop, h] using ih

/-- One unfolding step of the proof-collecting loop on a level of at least
two nodes. -/
theorem proofLoop_step (fuel : Nat) (ns : List (List Nat)) (i : Nat)
    (h : ¬ ns.length ≤ 1) :
    Share.proofLoop (fuel + 1) ns i =
      ((if (if i % 2 = 0 then i + 1 else i - 1) < ns.length
          then ns.getD (if i % 2 = 0 then i + 1 else i - 1) zero32
          else ns.getD i zero32)
        :: (Share.proofLoop fuel (Share.nextLevel ns) (i / 2)).1,
       (Share.proofLoop fuel (Share.nextLevel ns) (i / 2)).2) := by
  simp [Share.proofLoop, h]

/-- The node one level up at the halved index equals the combination the
verifier computes from the current node and the recorded sibling, for
either parity of the current index. -/
theorem combine_eq_nextLevel_getD (ns : List (List Nat)) (i : Nat)
    (hi : i < ns.length) :
    (if i &&& 1 = 1
      then sha256 ((if (if i % 2 = 0 then i + 1 else i - 1) < ns.length
            then ns.getD (if i % 2 = 0 then i + 1 else i - 1) zero32
            else ns.getD i zero32) ++ ns.getD i zero32)
      else sha256 (ns.getD i zero32 ++
          (if (if i % 2 = 0 then i + 1 else i - 1) < ns.length
            then ns.getD (if i % 2 = 0 then i + 1 else i - 1) zero32
            else ns.getD i zero32)))
      = (Share.nextLevel ns).getD (i / 2) zero32 := by
  have hbit : i &&& 1 = i % 2 := Nat.and_one_is_mod i
  have hget := nextLevel_getD ns (i / 2) (by omega)
  rcases Nat.mod_two_eq_zero_or_one i with hm | hm
  · have h2 : 2 * (i / 2) = i := by omega
    rw [hbit, hm, hget, h2]
    simp
  · have h2 : 2 * (i / 2) = i - 1 := by omega
    have h3 : 2 * (i / 2) + 1 = i := by omega
    have hsib : i - 1 < ns.length := by omega
    rw [hbit, hm, hget, h3, h2]
    simp [hi, hsib]

/-- Folding the collected siblings from the node at the current index
reaches some node of the final level: the verification fold tracks the
generator level by level. -/
theorem proofLoop_verify :
    ∀ (fuel : Nat) (ns : List (List Nat)) (index height : Nat),
      index >>> height < ns.length →
      ∃ j, j < ((Share.proofLoop fuel ns (index >>> height)).2).length ∧
        L2State.verifyLoop (ns.getD (index >>> height) zero32)
            ((Share.proofLoop fuel ns (index >>> height)).1) index height
          = ((Share.proofLoop fuel ns (index >>> height)).2).getD j zero32
  | 0, ns, index, height, h => by
      refine ⟨index >>> height, ?_, ?_⟩ <;> simp [Share.proofLoop, L2State.verifyLoop, h]
  | fuel + 1, ns, index, height, h => by
      by_cases hle : ns.length ≤ 1
      · refine ⟨index >>> height, ?_, ?_⟩ <;>
          simp [Share.proofLoop, hle, L2State.verifyLoop, h]
      · have hstep : index >>> (height + 1) = (index >>> height) / 2 :=
          Nat.shiftRight_succ index height
        have hnl := nextLevel_length ns
        have hlt : index >>> (height + 1) < (Share.nextLevel ns).length := by
          rw [hstep, hnl]; omega
        obtain ⟨j, hj, hv⟩ := proofLoop_verify fuel (Share.nextLevel ns) index (height + 1) hlt
        rw [hstep] at hj hv
        rw [proofLoop_step fuel ns (index >>> height) hle]
        refine ⟨j, hj, ?_⟩
        have hfold :
            L2State.verifyLoop (ns.getD (index >>> height) zero32)
              ((if (if (index >>> height) % 2 = 0 then index >>> height + 1
                    else index >>> height - 1) < ns.length
                then ns.getD (if (index >>> height) % 2 = 0 then index >>> height + 1
                    else index >>> height - 1) zero32
                else ns.getD (index >>> height) zero32)
                :: (Share.proofLoop fuel (Share.nextLevel ns) ((index >>> height) / 2)).1)
              index height
            = L2State.verifyLoop
                (if (index >>> height) &&& 1 = 1
                  then sha256 ((if (if (index >>> height) % 2 = 0 then index >>> height + 1
                        else index >>> height - 1) < ns.length
                      then ns.getD (if (index >>> height) % 2 = 0 then index >>> height + 1
                          else index >>> height - 1) zero32
                      else ns.getD (index >>> height) zero32) ++ ns.getD (index >>> height) zero32)
                  else sha256 (ns.getD (index >>> height) zero32 ++
                      (if (if (index >>> height) % 2 = 0 then index >>> height + 1
                          else index >>> height - 1) < ns.length
                        then ns.getD (if (index >>> height) % 2 = 0 then index >>> height + 1
                            else index >>> height - 1) zero32
                        else ns.getD (index >>> height) zero32)))
                (Share.proofLoop fuel (Share.nextLevel ns) ((index >>> height) / 2)).1
                index (height + 1) := rfl
        rw [hfold, combine_eq_nextLevel_getD ns (index >>> height) h, hv]

/-- With fuel equal to the leaf count, the proof-collecting loop ends with
a single root node, and folding the collected siblings from the leaf at
`index` reaches that root. -/
theorem proofLoop_root (padded : List (List Nat)) (index : Nat)
    (h : index < padded.length) :
    ∃ a, (Share.proofLoop padded.length padded index).2 = [a] ∧
      L2State.verifyLoop (padded.getD index zero32)
        ((Share.proofLoop padded.length padded index).1) index 0 = a := by
  have hpne : padded ≠ [] := List.ne_nil_of_length_pos (by omega)
  have hlen1 := proofLoop_snd_length padded.length padded index hpne (by omega)
  obtain ⟨a, ha⟩ := List.length_eq_one.mp hlen1
  obtain ⟨j, hj, hveq⟩ := proofLoop_verify padded.length padded index 0 (by simpa using h)
  rw [Nat.shiftRight_zero] at hj hveq
  rw [ha] at hj hveq
  have hj0 : j = 0 := by simp at hj; omega
  subst hj0
  exact ⟨a, ha, by simpa using hveq⟩

/-- Claim C8: for every withdrawal queue, every `range` with `1 ≤ range ≤ queue
length` and every `index < range`, generating the inclusion proof for the
withdrawal at `index` over the prefix `queue[0..range)` succeeds, returns
the queried index, and the proof verifies (by the on-chain sibling fold)
against the root the generator returns for that same prefix. -/
theorem withdrawal_merkle_proof_roundtrip (s : Share.State) (index range : Nat)
    (h1 : 1 ≤ range) (h2 : range ≤ s.withdrawal_queue.length) (h3 : index < range) :
    ∃ leaf proof root,
      Share.State.generate_withdrawal_merkle_proof s index range
        = some (leaf, proof, index, root) ∧
      L2State.verify_merkle_proof leaf proof index root = true := by
  have hq : s.withdrawal_queue ≠ [] :=
    List.ne_nil_of_length_pos (by omega)
  have hguard1 : ¬(s.withdrawal_queue = [] ∨ s.withdrawal_queue.length ≤ index) := by
    push_neg
    exact ⟨hq, by omega⟩
  have hguard2 : ¬(s.withdrawal_queue.length < range ∨ range ≤ index) := by
    push_neg
    exact ⟨by omega, by omega⟩
  set L := (s.withdrawal_queue.take range).map Share.calculate_withdrawal_hash with hL
  have hll : L.length = range := by
    rw [hL]
    simp [List.length_take]
    omega
  set P := if L.length % 2 = 1 then L ++ [zero32] else L with hP
  have hPlen : index < P.length := by
    rw [hP]
    split
    · simp
      omega
    · omega
  obtain ⟨a, ha, hv⟩ := proofLoop_root P index hPlen
  have hleaf : P.getD index zero32 = L.getD index zero32 := by
    rw [hP]
    split
    · exact List.getD_append L [zero32] zero32 index (by omega)
    · rfl
  refine ⟨L.getD index zero32, (Share.proofLoop P.length P index).1, a, ?_, ?_⟩
  · simp only [Share.State.generate_withdrawal_merkle_proof, if_neg hguard1,
      if_neg hguard2, ← hL, ← hP, ha]
    rfl
  · rw [L2State.verify_merkle_proof, ← hleaf, hv]
    exact beq_self_eq_true a

/-- Witness for C8: a three-entry queue, prefix range 3, index 1. -/
theorem withdrawal_merkle_proof_roundtrip_witness :
    1 ≤ 3 ∧ 3 ≤ c8State.withdrawal_queue.length ∧ 1 < 3 ∧
    (∃ leaf proof root,
      Share.State.generate_withdrawal_merkle_proof c8State 1 3
        = some (leaf, proof, 1, root) ∧
      L2State.verify_merkle_proof leaf proof 1 root = true) :=
  ⟨by decide, by decide, by decide,
   withdrawal_merkle_proof_roundtrip c8State 1 3 (by decide) (by decide) (by decide)⟩

/-- The bottom-up level loop never empties a nonempty level list. -/
theorem buildLoop_ne_nil :
    ∀ (fuel : Nat) (ns : List (List Nat)), ns ≠ [] → Share.buildLoop fuel ns ≠ []
  | 0, ns, h => by simpa [Share.buildLoop] using h
  | fuel + 1, ns, h => by
      by_cases hle : ns.length ≤ 1
      · simpa [Share.buildLoop, hle] using h
      · have hnl := nextLevel_length ns
        have hpos : 0 < ns.length := List.length_pos.mpr h
        have hne : Share.nextLevel ns ≠ [] :=
          List.ne_nil_of_length_pos (by rw [hnl]; omega)
        simpa [Share.buildLoop, hle] using buildLoop_ne_nil fuel (Share.nextLevel ns) hne

/-- Claim C9: the two Merkle roots pad a lone leaf differently — the balance
tree duplicates the leaf, the withdrawal tree pairs it with the all-zero
leaf — and the state root is `none` exactly on an empty balance map. The
balance leaf is SHA-256 of the address bytes and the big-endian `u128`
balance; the withdrawal leaf is SHA-256 of from, to, big-endian `u64`
amount and index. -/
theorem merkle_root_boundary_cases :
    (∀ (a : List Nat) (b : Nat) (q : List Share.Withdrawal),
      Share.State.calculate_state_root ⟨[(a, b)], q⟩
        = some (sha256 (sha256 (a ++ beBytes 16 b) ++ sha256 (a ++ beBytes 16 b))))
    ∧ (∀ (w : Share.Withdrawal) (bal : List (List Nat × Nat)),
      Share.State.calculate_withdrawal_root ⟨bal, [w]⟩
        = some (sha256
            (sha256 (w.«from» ++ w.«to» ++ beBytes 8 w.amount ++ beBytes 8 w.index)
              ++ zero32)))
    ∧ (∀ s : Share.State, s.calculate_state_root = none ↔ s.balances = []) := by
  refine ⟨fun a b q => rfl, fun w bal => rfl, fun s => ?_⟩
  constructor
  · intro h
    by_contra hne
    rw [Share.State.calculate_state_root, if_neg hne] at h
    simp only [] at h
    set L := s.balances.map (fun p => Share.calculate_user_hash p.1 p.2) with hL
    have hmapne : L ≠ [] := by
      rw [hL]
      intro hc
      exact hne (List.map_eq_nil_iff.mp hc)
    set P := if L.length % 2 = 1 then L ++ [L.getD (L.length - 1) zero32] else L with hP
    have hPne : P ≠ [] := by
      rw [hP]
      split
      · simp
      · exact hmapne
    have hb := buildLoop_ne_nil P.length P hPne
    rw [List.head?_eq_none_iff] at h
    exact hb h
  · intro h
    rw [Share.State.calculate_state_root, if_pos h]

/-- The instruction loop of `pre_process` only ever produces `Ok(None)` or
an error: both parsing branches discard the parsed transfer. -/
theorem preProcessLoop_cases (txn : Share.Transaction) :
    ∀ l, Executor.preProcessLoop txn l = .ok none
      ∨ ∃ e, Executor.preProcessLoop txn l = .error e
  | [] => .inl rfl
  | ins :: rest => by
      rcases h : Executor.parsing_instruction ins txn with e | o
      · exact .inr ⟨e, by simp [Executor.preProcessLoop, h]⟩
      · rcases preProcessLoop_cases txn rest with h2 | ⟨e, h2⟩
        · exact .inl (by simp [Executor.preProcessLoop, h, h2])
        · exact .inr ⟨e, by simp [Executor.preProcessLoop, h, h2]⟩

/-- Claim C5: `Executor::execute` produces a block exactly when the drained
transaction list is empty — `pre_process` never returns a transfer op (it
panics on a missing signature, errors on a bad program id index, or
returns `Ok(None)`), so the `.unwrap().unwrap()` in `execute` panics on
every transaction. -/
theorem execute_requires_empty_mempool :
    (∀ (balances : Executor.Balances) (mempool : List Share.Transaction),
        (Executor.execute balances mempool).isSome ↔ mempool = [])
    ∧ (∀ txn : Share.Transaction,
        Executor.pre_process txn = none
        ∨ Executor.pre_process txn = some (.ok none)
        ∨ ∃ e, Executor.pre_process txn = some (.error e)) := by
  have hpp : ∀ txn : Share.Transaction,
      Executor.pre_process txn = none
      ∨ Executor.pre_process txn = some (.ok none)
      ∨ ∃ e, Executor.pre_process txn = some (.error e) := by
    intro txn
    rw [Executor.pre_process]
    split
    · exact .inl rfl
    · rcases preProcessLoop_cases txn txn.message.instructions with h | ⟨e, h⟩
      · exact .inr (.inl (by rw [h]))
      · exact .inr (.inr ⟨e, by rw [h]⟩)
  refine ⟨?_, hpp⟩
  intro balances mempool
  cases mempool with
  | nil => simp [Executor.execute, Executor.collectTransfers]
  | cons t ts =>
      have hct : Executor.collectTransfers (t :: ts) = none := by
        rcases hpp t with h | h | ⟨e, h⟩ <;> simp [Executor.collectTransfers, h]
      simp [Executor.execute, hct]

/-- Claim C7 (amended): the executor transfer applies the ops in order up to the
first op whose sender balance is insufficient; that op and all later ops
are not applied (the loop returns an error there), and no balance is
partially mutated by the failing op. With no insufficient op, all ops are
applied and the call succeeds. -/
theorem transfer_stops_at_first_insufficient :
    ∀ (ops : List Executor.TransferOp) (balances : Executor.Balances),
      (Executor.firstInsufficient balances ops = none →
        Executor.transfer balances ops = (Executor.applyOps balances ops, true))
      ∧ (∀ k, Executor.firstInsufficient balances ops = some k →
        Executor.transfer balances ops = (Executor.applyOps balances (ops.take k), false))
  | [], balances => by
      constructor
      · intro _
        simp [Executor.transfer, Executor.applyOps]
      · intro k hk
        simp [Executor.firstInsufficient] at hk
  | op :: rest, balances => by
      by_cases h : Executor.getBalance balances op.«from» < op.amount
      · constructor
        · intro hnone
          simp [Executor.firstInsufficient, h] at hnone
        · intro k hk
          have hk0 : k = 0 := by
            simp [Executor.firstInsufficient, h] at hk
            omega
          subst hk0
          simp [Executor.transfer, h, Executor.applyOps]
      · have ih := transfer_stops_at_first_insufficient rest (Executor.applyOp balances op)
        constructor
        · intro hnone
          have hrest : Executor.firstInsufficient (Executor.applyOp balances op) rest = none := by
            simpa [Executor.firstInsufficient, h] using hnone
          simp [Executor.transfer, h, Executor.applyOps, ih.1 hrest]
        · intro k hk
          rcases hk' : Executor.firstInsufficient (Executor.applyOp balances op) rest with _ | k'
          · simp [Executor.firstInsufficient, h, hk'] at hk
          · have hkk : k = k' + 1 := by
              simp [Executor.firstInsufficient, h, hk'] at hk
              omega
            subst hkk
            simp [Executor.transfer, h, Executor.applyOps, ih.2 k' hk']

/-- Witness for C7 (amended): on `c7Balances`/`c7Ops` the very first op is
insufficient, so no op is applied and the call fails. -/
theorem transfer_stops_at_first_insufficient_witness :
    Executor.firstInsufficient c7Balances c7Ops = some 0 ∧
    Executor.transfer c7Balances c7Ops = (Executor.applyOps c7Balances (c7Ops.take 0), false) :=
  ⟨by decide, (transfer_stops_at_first_insufficient c7Ops c7Balances).2 0 (by decide)⟩

/-- Counterexample for C7 as stated: with balances `{A: 50, C: 20}` and the
ops `[A to B for 100, C to D for 10]`, the code aborts at the first
(insufficient) op and never applies the second, so the resulting map is
not the spec-described one obtained by dropping only the insufficient op
and continuing: the code leaves C at 20 and never credits D, while the
drop-and-continue semantics leaves C at 10 and credits D with 10. -/
theorem transfer_not_drop_and_continue :
    ((Executor.transfer c7Balances c7Ops).1
      == Executor.transfer_spec_drop_continue c7Balances c7Ops) = false ∧
    Executor.getBalance (Executor.transfer c7Balances c7Ops).1 [67] = 20 ∧
    Executor.getBalance (Executor.transfer_spec_drop_continue c7Balances c7Ops) [67] = 10 ∧
    Executor.getBalance (Executor.transfer_spec_drop_continue c7Balances c7Ops) [68] = 10 := by
  refine ⟨by decide, by decide, by decide, by decide⟩

/-- Claim C3: the executor treats a transfer to `WITHDRAWAL_ADDRESS` as a plain
balance transfer and appends nothing to the withdrawal queue — with
balances `{A: 500}` and the op `A to WITHDRAWAL_ADDRESS for 200`, the
queue stays empty (in particular it is not the one-record queue the claim
describes) and the balances become `{A: 300, WITHDRAWAL_ADDRESS: 200}`. -/
theorem executor_never_enqueues_withdrawals :
    (Executor.applyTransfers c3State [c3Op]).withdrawal_queue = [] ∧
    ((Executor.applyTransfers c3State [c3Op]).withdrawal_queue
      == [c3ClaimedRecord]) = false ∧
    (Executor.applyTransfers c3State [c3Op]).balances
      = [([65], 300), (Share.WITHDRAWAL_ADDRESS, 200)] := by
  refine ⟨by decide, by decide, by decide⟩

/-- Claim C4: on a transaction whose single instruction is a well-formed
system-program transfer of 7 lamports, the inner `parsing_sys_instruction`
does produce the transfer op, but `parsing_instruction` discards it and
returns `Ok(None)`. -/
theorem parsing_instruction_discards_transfer :
    Share.parsing_sys_instruction c4Ins c4Txn
      = some { «from» := c4KeyA, «to» := c4KeyB, amount := 7 } ∧
    Share.parsing_instruction c4Ins c4Txn = .ok none := by
  refine ⟨by decide, rfl⟩

/-- Claim C10: the batcher block-collection step is total exactly when the next
start block number does not exceed the locally latest block number; in
particular, when the previously committed batch already contains the
latest block, so that the next start is `latest + 1`, the `u64`
subtraction `latest - start` underflows instead of yielding an empty
batch. -/
theorem collect_blocks_total_iff_start_le_latest :
    (∀ (db : Nat → Option (Option Share.Block)) (start_block_num latest : Nat),
        (TxBatcher.collect_blocks_for_batch db start_block_num latest).isSome
          ↔ start_block_num ≤ latest)
    ∧ (∀ (db : Nat → Option (Option Share.Block)) (latest : Nat),
        TxBatcher.collect_blocks_for_batch db (latest + 1) latest = none) := by
  constructor
  · intro db start latest
    rw [TxBatcher.collect_blocks_for_batch]
    split
    · simp
      omega
    · simp
      omega
  · intro db latest
    rw [TxBatcher.collect_blocks_for_batch]
    simp

/-- Claim C6: `prove_state` overwrites the finalized frontier unconditionally —
starting from `c6State` with frontier 5 and batch 2 still in storage, a
successful proof of batch 2 regresses the stored frontier to 2. The
frontier does start at 0 after `initialize`. -/
theorem prove_state_frontier_regression :
    ((L2State.prove_state (fun _ _ => true) c6State
        { batch_index := 2, proof := [] }).toOption.map
      (fun st => st.last_finalized_batch_index)) = some 2
    ∧ c6State.last_finalized_batch_index = 5
    ∧ L2State.Settlement.init.last_finalized_batch_index = 0 := by
  refine ⟨rfl, rfl, rfl⟩

/-- Claim C1: the bridge withdrawal is replayable. From `c1State` (root
finalized, vault balance 400, vault holding 1000 lamports) the first
withdrawal of 200 succeeds and marks the leaf in `FinalizedWithdrawals`;
an identical second call nonetheless succeeds as well — no step consults
`FinalizedWithdrawals` — draining the vault balance to 0, moving 400
lamports in total and crediting the destination twice. -/
theorem bridge_withdrawal_replay_not_prevented :
    ((L2State.withdrawal c1State c1Sender c1To c1Data 0).toOption.map
      (fun r => L2State.assocGet r.1.finalized_withdrawals c1Leaf false)) = some true
    ∧ (((L2State.withdrawal c1State c1Sender c1To c1Data 0).toOption.bind
        (fun r => (L2State.withdrawal r.1 c1Sender c1To c1Data r.2).toOption)).map
      (fun r => (L2State.assocGet r.1.vault_balances c1Sender 0, r.1.vault_lamports, r.2)))
      = some (0, 600, 400) := by
  refine ⟨by decide, by decide⟩

/-- Claim C2: the digest the zkVM guest commits differs from the digest the
on-chain `prove_state` recomputes, on the same batch data — the guest
omits the withdrawal root. Both sides agree on the DA hash of the same
serialized blocks (here the one-byte block list `[[1]]`), yet the two
public-input hashes disagree. -/
theorem guest_pi_hash_differs_from_onchain :
    Prover.calculate_da_hash [1] = L2State.hash_nested_vector [[1]]
    ∧ (Prover.calculate_pi_hash zero32 zero32 (Prover.calculate_da_hash [1])
        == L2State.prove_state_pi_hash
            { batch_index := 1, start_block_num := 1, end_block_num := 1,
              batch_hash := L2State.hash_nested_vector [[1]],
              prev_state_root := zero32, post_state_root := zero32,
              withdrawal_root := zero32 }) = false := by
  refine ⟨by decide, by decide⟩
